import Mathlib

/-!
Verification of the TCP relay secure-connection engine of `mintox`
(`src/mintox/tcp_server.go`): wire framing, nonce bookkeeping, the
connection state machine, the length-prefixed reassembly loop, the
control-queue enqueue policy and the handshake processing.

Byte strings are modelled as `List Nat` (each entry `< 256` where it
matters), machine integers as `Nat` with explicit `% 2^w` where the Go
code truncates. The cryptographic primitives (`EncryptDataSymmetric`,
`DecryptDataSymmetric`, `CBBeforeNm`, `CBNonce`) live outside the
file under verification and are modelled from the spec's input/output
contract (spec §1, §3, §8).
-/

namespace Mintox

/-- Byte strings on the wire: lists of byte values. -/
abbrev Bytes := List Nat

/-! ### Constants from `tcp_server.go` (lines 21-57) -/

def MAX_PACKET_SIZE : Nat := 2048

/-- Modelled from the spec: `CryptoKey` is a fixed 32-byte value (spec §3). -/
def PUBLIC_KEY_SIZE : Nat := 32

/-- Modelled from the spec: `Nonce` is a fixed 24-byte value (spec §3). -/
def NONCE_SIZE : Nat := 24

/-- Modelled from the spec: MAC size of the authenticated encryption
primitive (NaCl secretbox, 16 bytes); the spec only names it `MAC-size`. -/
def MAC_SIZE : Nat := 16

def NUM_RESERVED_PORTS : Nat := 16

def TCP_PACKET_ROUTING_REQUEST : Nat := 0
def TCP_PACKET_ROUTING_RESPONSE : Nat := 1
def TCP_PACKET_CONNECTION_NOTIFICATION : Nat := 2
def TCP_PACKET_DISCONNECT_NOTIFICATION : Nat := 3
def TCP_PACKET_PING : Nat := 4
def TCP_PACKET_PONG : Nat := 5
def TCP_PACKET_OOB_SEND : Nat := 6
def TCP_PACKET_OOB_RECV : Nat := 7
def TCP_PACKET_ONION_REQUEST : Nat := 8
def TCP_PACKET_ONION_RESPONSE : Nat := 9

def TCP_STATUS_NO_STATUS : Nat := 0
def TCP_STATUS_CONNECTED : Nat := 1
def TCP_STATUS_UNCONFIRMED : Nat := 2
def TCP_STATUS_CONFIRMED : Nat := 3

/-! ### Byte-level integer encodings (`encoding/binary`, big-endian) -/

/-- `binary.Write(..., binary.BigEndian, uint16(n))`: the two big-endian
bytes of `n` truncated to 16 bits, as Go's `uint16(n)` conversion does. -/
def u16be (n : Nat) : Bytes := [n % 65536 / 256, n % 256]

/-- `binary.Read(..., binary.BigEndian, &uint16)`: big-endian 16-bit value
from the first two bytes of a buffer (0 if the buffer is too short, a case
the Go code only reaches with a reported error). -/
def be16 (b : Bytes) : Nat :=
  match b with
  | b0 :: b1 :: _ => 256 * b0 + b1
  | _ => 0

/-- Big-endian value of a whole byte string (used to abstract a 24-byte
nonce value into a single natural number). -/
def beNat (l : Bytes) : Nat := l.foldl (fun a b => 256 * a + b) 0

/-- Big-endian byte string of width `w` for value `n`. -/
def natToBE (w n : Nat) : Bytes :=
  (List.range w).map (fun i => n / 256 ^ (w - 1 - i) % 256)

/-- `CBNonce.Bytes()`: the 24 bytes of a nonce value. -/
def nonceBytes (n : Nat) : Bytes := natToBE NONCE_SIZE n

/-- Modelled from the spec: `CBNonce.Incr()`, the explicit increment
operation on a fixed 24-byte nonce (spec §3), abstracted as `+1` modulo
the 24-byte range. -/
def nonceIncr (n : Nat) : Nat := (n + 1) % 2 ^ (8 * NONCE_SIZE)

/-! ### Authenticated symmetric encryption, modelled from the spec

The primitives are external collaborators (spec §1): the contract is that
ciphertext length = plaintext length + MAC size, that decryption with the
same key and nonce restores the plaintext exactly, and that decryption is
authenticated, i.e. can fail on data that was not produced with the same
key and nonce (spec §8). We realise the contract with an idealised
executable MAC so that authentication failures are representable. -/

/-- Modelled from the spec: the authentication tag (`MAC_SIZE` bytes)
of a (key, nonce, message) triple, an idealised executable hash. -/
def macTag (key : Bytes) (nonce : Nat) (plain : Bytes) : Bytes :=
  let h0 := key.foldl (fun a b => (a * 131 + b + 1) % 65521) (nonce % 65521 + 3)
  let h := plain.foldl (fun a b => (a * 131 + b + 1) % 65521) h0
  (List.range MAC_SIZE).map (fun i => (h + i) % 256)

/-- Modelled from the spec: `EncryptDataSymmetric(key, nonce, plain)`
returns tag ‖ plaintext, of length `plain.length + MAC_SIZE` (spec §8:
ciphertext is plaintext length plus MAC). -/
def EncryptDataSymmetric (key : Bytes) (nonce : Nat) (plain : Bytes) : Bytes :=
  macTag key nonce plain ++ plain

/-- Modelled from the spec: `DecryptDataSymmetric(key, nonce, ct)` checks
the authentication tag and returns the plaintext on success, failing
otherwise (spec §8: decrypt of encrypt with the same key and nonce is the
identity; otherwise authentication fails). -/
def DecryptDataSymmetric (key : Bytes) (nonce : Nat) (ct : Bytes) : Option Bytes :=
  if MAC_SIZE ≤ ct.length ∧ ct.take MAC_SIZE = macTag key nonce (ct.drop MAC_SIZE)
  then some (ct.drop MAC_SIZE) else none

/-- Modelled from the spec: `CBBeforeNm`, the Diffie-Hellman shared-secret
derivation from a public and a secret key (spec §2, §4.1); opaque to all
claims, so realised as an executable pairing. -/
def CBBeforeNm (pk sk : Bytes) : Bytes := pk ++ sk

theorem macTag_length (key : Bytes) (nonce : Nat) (plain : Bytes) :
    (macTag key nonce plain).length = MAC_SIZE := by
  simp [macTag]

theorem encrypt_length (key : Bytes) (nonce : Nat) (plain : Bytes) :
    (EncryptDataSymmetric key nonce plain).length = plain.length + MAC_SIZE := by
  simp [EncryptDataSymmetric, macTag_length, Nat.add_comm]

theorem decrypt_encrypt (key : Bytes) (nonce : Nat) (plain : Bytes) :
    DecryptDataSymmetric key nonce (EncryptDataSymmetric key nonce plain) = some plain := by
  have htake : (EncryptDataSymmetric key nonce plain).take MAC_SIZE = macTag key nonce plain := by
    have := List.take_left (macTag key nonce plain) plain
    rwa [macTag_length] at this
  have hdrop : (EncryptDataSymmetric key nonce plain).drop MAC_SIZE = plain := by
    have := List.drop_left (macTag key nonce plain) plain
    rwa [macTag_length] at this
  have hlen : MAC_SIZE ≤ (EncryptDataSymmetric key nonce plain).length := by
    rw [encrypt_length]; omega
  simp [DecryptDataSymmetric, htake, hdrop, hlen]

/-! ### Connection state (`TCPSecureConn`, lines 92-119)

The fields the verified operations touch: the crypto bookkeeping
(`Shrkey`, `RecvNonce`, `SentNonce`), the status, the bounded control
output queue `cwctrlq` (a Go channel of capacity 64, modelled as the list
of queued payloads) and whether an `OnConfirmed` callback is installed.
Sockets, logging, speed counters and the data queue are not touched by
the claims under verification. -/

structure TCPSecureConn where
  Pubkey : Bytes
  Seckey : Bytes
  Shrkey : Bytes
  RecvNonce : Nat
  SentNonce : Nat
  Status : Nat
  cwctrlq : List Bytes
  OnConfirmedSet : Bool
deriving DecidableEq

/-- `NewTCPSecureConn` (lines 136-147): fresh connection, empty control
queue (capacity 64), status left at Go's zero value `TCP_STATUS_NO_STATUS`. -/
def NewTCPSecureConn : TCPSecureConn :=
  { Pubkey := [], Seckey := [], Shrkey := [], RecvNonce := 0, SentNonce := 0
    Status := TCP_STATUS_NO_STATUS, cwctrlq := [], OnConfirmedSet := false }

/-- Capacity of `cwctrlq`: `make(chan []byte, 64)` (line 143). -/
def cwctrlqCap : Nat := 64

/-! ### Framing (`CreatePacket`, `Unpacket`, `WritePacket`, lines 390-475) -/

/-- `CreatePacket` (lines 456-468): encrypt with `Shrkey`/`SentNonce`,
prefix with the big-endian `uint16` of the ciphertext length. -/
def CreatePacket (c : TCPSecureConn) (plain : Bytes) : Bytes :=
  let encdat := EncryptDataSymmetric c.Shrkey c.SentNonce plain
  u16be encdat.length ++ encdat

/-- `WritePacket` (lines 390-399): create the frame, write it to the
socket, and increment `SentNonce` exactly when the write returned no
error. The socket write outcome is the explicit parameter `writeOk`.
Returns the updated connection and the frame handed to the socket. -/
def WritePacket (c : TCPSecureConn) (data : Bytes) (writeOk : Bool) :
    TCPSecureConn × Bytes :=
  let encpkt := CreatePacket c data
  if writeOk then ({ c with SentNonce := nonceIncr c.SentNonce }, encpkt)
  else (c, encpkt)

/-- `Unpacket` (lines 469-475): read the 2-byte big-endian length, decrypt
everything after the 2-byte prefix with `Shrkey`/`RecvNonce`, and
increment `RecvNonce` — the increment in the source is unconditional, it
happens whether or not `DecryptDataSymmetric` failed. -/
def Unpacket (c : TCPSecureConn) (encpkt : Bytes) :
    Nat × Option Bytes × TCPSecureConn :=
  let datlen := be16 encpkt
  let plnpkt := DecryptDataSymmetric c.Shrkey c.RecvNonce (encpkt.drop 2)
  (datlen, plnpkt, { c with RecvNonce := nonceIncr c.RecvNonce })

/-! ### Control queue (`SendCtrlPacket`, lines 401-426) -/

/-- The two error results of `SendCtrlPacket`: payload over 2048 bytes,
or control queue at capacity. -/
inductive CtrlSendErr where
  | dataTooLong
  | queueFull
deriving DecidableEq

/-- `SendCtrlPacket` (lines 401-426): reject payloads longer than 2048
bytes; reject (dropping the payload) when the queue already holds
`cwctrlqCap` entries; otherwise enqueue. The `select`/`default` in the
source is the non-blocking channel send; with fewer than 64 entries
queued it always succeeds, so the sequential model enqueues. -/
def SendCtrlPacket (c : TCPSecureConn) (data : Bytes) :
    TCPSecureConn × Option CtrlSendErr :=
  if 2048 < data.length then (c, some .dataTooLong)
  else if cwctrlqCap ≤ c.cwctrlq.length then (c, some .queueFull)
  else ({ c with cwctrlq := c.cwctrlq ++ [data] }, none)

/-- `HandlePingRequest` (lines 378-388): enqueue a PONG whose body is
everything after the request's type byte (the 8-byte ping id). -/
def HandlePingRequest (c : TCPSecureConn) (rpkt : Bytes) :
    TCPSecureConn × Option CtrlSendErr :=
  SendCtrlPacket c (TCP_PACKET_PONG :: rpkt.drop 1)

/-! ### Handshake (`HandleHandshake`, lines 345-376) -/

/-- The fresh random values `HandleHandshake` draws: the send nonce
(`CBRandomNonce`), the response's outer nonce (`CBRandomNonce`), and the
relay's temporary key pair (`NewCBKeyPair`). -/
structure HSRand where
  sentNonce : Nat
  srvTmpNonce : Nat
  tmpPubkey : Bytes
  tmpSeckey : Bytes
deriving DecidableEq

/-- `HandleHandshake` (lines 345-376): derive `shrkey0` from the client's
long-term public key and the relay's secret key, decrypt the blob with
the client's outer nonce to recover the client's temporary public key and
the receive-nonce seed, derive the session `Shrkey` from the client's
temporary public key and a fresh relay temporary secret key, and send
`srvTmpNonce ‖ AuthEncrypt(shrkey0, srvTmpNonce, tmpPubkey ‖ SentNonce)`.
A decryption failure is only logged in the source; the subsequent slicing
of the `nil` plaintext is modelled by `Option.getD`. Returns the updated
connection and the bytes written to the socket. -/
def HandleHandshake (c : TCPSecureConn) (rdbuf : Bytes) (r : HSRand) :
    TCPSecureConn × Bytes :=
  let cliPubkey := rdbuf.take PUBLIC_KEY_SIZE
  let cliTmpNonce := beNat ((rdbuf.drop PUBLIC_KEY_SIZE).take NONCE_SIZE)
  let shrkey := CBBeforeNm cliPubkey c.Seckey
  let cliplnpkt :=
    (DecryptDataSymmetric shrkey cliTmpNonce
      (rdbuf.drop (PUBLIC_KEY_SIZE + NONCE_SIZE))).getD []
  let hstmppk := cliplnpkt.take PUBLIC_KEY_SIZE
  let recvNonce := beNat ((cliplnpkt.drop PUBLIC_KEY_SIZE).take NONCE_SIZE)
  let shrkeySess := CBBeforeNm hstmppk r.tmpSeckey
  let srvplnpkt := r.tmpPubkey ++ nonceBytes r.sentNonce
  let encpkt := EncryptDataSymmetric shrkey r.srvTmpNonce srvplnpkt
  let wrbuf := nonceBytes r.srvTmpNonce ++ encpkt
  ({ c with Pubkey := cliPubkey, RecvNonce := recvNonce
            SentNonce := r.sentNonce, Shrkey := shrkeySess }, wrbuf)

/-! ### Per-frame processing (`doReadPacket`'s second switch, lines 229-274) -/

/-- Outcome of processing one extracted unit: normal continuation
(recording whether the `OnConfirmed` callback fired), a `log.Fatalln`
process abort, or a Go runtime panic from indexing a `nil`/empty
plaintext after a failed decrypt. -/
inductive ProcOut where
  | ok (confirmedFired : Bool)
  | fatal
  | panicked
deriving DecidableEq

/-- The Confirmed-state dispatch cases of `doReadPacket` (lines 252-271),
in source order; `true` means some (possibly empty placeholder) case
matched, `false` means the `default` branch, `log.Fatalln`. -/
def dispatchOk (ptype : Nat) : Bool :=
  ptype == TCP_PACKET_PING ||
  ptype == TCP_PACKET_PONG ||
  ptype == TCP_PACKET_ROUTING_RESPONSE ||
  ptype == TCP_PACKET_CONNECTION_NOTIFICATION ||
  ptype == TCP_PACKET_DISCONNECT_NOTIFICATION ||
  ptype == TCP_PACKET_OOB_RECV ||
  ptype == TCP_PACKET_ONION_RESPONSE ||
  decide (NUM_RESERVED_PORTS ≤ ptype) ||
  (decide (TCP_PACKET_ONION_RESPONSE < ptype) && decide (ptype < NUM_RESERVED_PORTS))

/-- The second `switch` of `doReadPacket` (lines 229-274), processing one
extracted unit `rdbuf`: in `NO_STATUS` run the handshake and move to
`UNCONFIRMED`; in `UNCONFIRMED` decrypt, answer the ping request, move to
`CONFIRMED` and fire `OnConfirmed` when installed; in `CONFIRMED` decrypt
and dispatch on the type byte. Returns the connection, the bytes written
directly to the socket, and the control outcome. -/
def doReadFrameStep (c : TCPSecureConn) (rdbuf : Bytes) (r : HSRand) :
    TCPSecureConn × Bytes × ProcOut :=
  if c.Status = TCP_STATUS_NO_STATUS then
    let p := HandleHandshake c rdbuf r
    ({ p.1 with Status := TCP_STATUS_UNCONFIRMED }, p.2, .ok false)
  else if c.Status = TCP_STATUS_UNCONFIRMED then
    let u := Unpacket c rdbuf
    match u.2.1 with
    | none => (u.2.2, [], .panicked)
    | some [] => (u.2.2, [], .panicked)
    | some plnpkt =>
      let p := HandlePingRequest u.2.2 plnpkt
      ({ p.1 with Status := TCP_STATUS_CONFIRMED }, [], .ok c.OnConfirmedSet)
  else if c.Status = TCP_STATUS_CONFIRMED then
    let u := Unpacket c rdbuf
    match u.2.1 with
    | none => (u.2.2, [], .panicked)
    | some [] => (u.2.2, [], .panicked)
    | some (ptype :: _) =>
      (u.2.2, [], if dispatchOk ptype then .ok false else .fatal)
  else (c, [], .fatal)

/-! ### Length-prefixed reassembly (`doReadPacket`'s first switch,
lines 194-227, in states `UNCONFIRMED`/`CONFIRMED`)

The decode loop works on the ring buffer `crbuf` (the buffered inbound
bytes, here `buf`) and the cross-call pending length `*nxtpktlen` (here
`pending`, 0 meaning no length pending). One loop iteration either
returns to the socket wait, keeping the unconsumed buffer and pending
length, or extracts one unit `rdbuf = u16be len ‖ payload` exactly as the
source rebuilds it (lines 221-226). -/

/-- One iteration of the length-prefixed read (lines 206-226):
either not enough bytes are buffered (keep buffer and pending length and
return to the socket wait), or one unit is extracted. -/
inductive StepRes where
  | needMore (buf : Bytes) (pending : Nat)
  | got (frame : Bytes) (rest : Bytes)
deriving DecidableEq

/-- One iteration of the length-prefixed branch of `doReadPacket`
(lines 206-226): with no pending length, wait unless 2 bytes are
buffered, else consume the 2-byte big-endian length; then wait unless
that many further bytes are buffered, remembering the pending length;
else extract exactly one unit (rebuilt as length-prefix ‖ payload, as
lines 221-226 do). -/
def readStep (buf : Bytes) (pending : Nat) : StepRes :=
  if pending = 0 then
    if buf.length < 2 then .needMore buf 0
    else if (buf.drop 2).length < be16 buf then .needMore (buf.drop 2) (be16 buf)
    else .got (u16be (be16 buf) ++ (buf.drop 2).take (be16 buf)) ((buf.drop 2).drop (be16 buf))
  else
    if buf.length < pending then .needMore buf pending
    else .got (u16be pending ++ buf.take pending) (buf.drop pending)

/-- The `for !stop` loop of `doReadPacket` (lines 196-276) restricted to
its extraction effect in states `UNCONFIRMED`/`CONFIRMED`: repeat
`readStep` until it waits, collecting the extracted units in order;
`*nxtpktlen` is reset to 0 after each processed unit (line 275). Fuelled;
every extraction consumes at least one byte, so `buf.length + 1` fuel
(supplied by `doReadPacketFrames`) always suffices. -/
def drainFrames : Nat → Bytes → Nat → List Bytes × Bytes × Nat
  | 0, buf, pending => ([], buf, pending)
  | fuel + 1, buf, pending =>
    match readStep buf pending with
    | .needMore buf' p => ([], buf', p)
    | .got f rest =>
      let r := drainFrames fuel rest 0
      (f :: r.1, r.2.1, r.2.2)

/-- One call of `doReadPacket` in states `UNCONFIRMED`/`CONFIRMED`:
extract every complete unit from the buffered bytes, returning the
extracted units, the unconsumed buffer, and the pending length left in
`*nxtpktlen` for the next call. -/
def doReadPacketFrames (buf : Bytes) (pending : Nat) : List Bytes × Bytes × Nat :=
  drainFrames (buf.length + 1) buf pending

/-- The read loop (`runReadLoop`, lines 157-188) in states
`UNCONFIRMED`/`CONFIRMED`: each socket read appends its chunk to the ring
buffer and runs `doReadPacket`; the unconsumed buffer and `nxtpktlen`
persist across reads. Returns all extracted units and the final state. -/
def runReadChunks (st : Bytes × Nat) (chunks : List Bytes) :
    List Bytes × Bytes × Nat :=
  match chunks with
  | [] => ([], st.1, st.2)
  | ch :: rest =>
    let r := doReadPacketFrames (st.1 ++ ch) st.2
    let r' := runReadChunks (r.2.1, r.2.2) rest
    (r.1 ++ r'.1, r'.2.1, r'.2.2)

/-! ### The `NO_STATUS` read branch (lines 199-205) -/

/-- Outcome of the `NO_STATUS` branch of `doReadPacket`: either the
`gopp.Assert(rn == cap(rdbuf), "not read enough data")` fires (an abort),
or the fixed-size handshake request is extracted. -/
inductive HSReadRes where
  | assertFail
  | frame (rdbuf rest : Bytes)
deriving DecidableEq

/-- The `NO_STATUS` branch of `doReadPacket` (lines 199-205): allocate
`(PUBLIC_KEY_SIZE+NONCE_SIZE)*2 + MAC_SIZE` bytes and read from the ring
buffer with no prior length check; the ring read returns
`min(requested, buffered)` bytes and the assertion demands the full
requested amount. -/
def hsReadNoStatus (buf : Bytes) : HSReadRes :=
  let want := (PUBLIC_KEY_SIZE + NONCE_SIZE) * 2 + MAC_SIZE
  let rn := min want buf.length
  if rn = want then .frame (buf.take want) (buf.drop want) else .assertFail

/-! ## Claims -/

/-- C1: Frame round-trip — for every plaintext of length `L`,
`CreatePacket` produces a frame whose first two bytes are the big-endian
`uint16` encoding of `L + MAC_SIZE` (the ciphertext length), and
`Unpacket` applied to that frame, with the receive nonce and shared key
equal to the send nonce and shared key used to create it, recovers
exactly the original plaintext. -/
theorem frame_roundtrip (c d : TCPSecureConn) (plain : Bytes)
    (hk : d.Shrkey = c.Shrkey) (hn : d.RecvNonce = c.SentNonce) :
    (CreatePacket c plain).take 2 = u16be (plain.length + MAC_SIZE) ∧
    (Unpacket d (CreatePacket c plain)).2.1 = some plain := by
  constructor
  · show (u16be (EncryptDataSymmetric c.Shrkey c.SentNonce plain).length ++
      EncryptDataSymmetric c.Shrkey c.SentNonce plain).take 2 = _
    rw [encrypt_length, u16be]
    rfl
  · show (_, DecryptDataSymmetric d.Shrkey d.RecvNonce
      ((u16be (EncryptDataSymmetric c.Shrkey c.SentNonce plain).length ++
        EncryptDataSymmetric c.Shrkey c.SentNonce plain).drop 2), _).2.1 = some plain
    rw [u16be]
    show DecryptDataSymmetric d.Shrkey d.RecvNonce
      (EncryptDataSymmetric c.Shrkey c.SentNonce plain) = some plain
    rw [hk, hn, decrypt_encrypt]

/-- C1 witness: the round-trip at a concrete key, nonce and plaintext. -/
theorem frame_roundtrip_witness :
    (CreatePacket { NewTCPSecureConn with Shrkey := [3], SentNonce := 9 } [4, 7]).take 2 =
      u16be ([4, 7].length + MAC_SIZE) ∧
    (Unpacket { NewTCPSecureConn with Shrkey := [3], RecvNonce := 9 }
      (CreatePacket { NewTCPSecureConn with Shrkey := [3], SentNonce := 9 } [4, 7])).2.1 =
      some [4, 7] :=
  frame_roundtrip _ _ _ rfl rfl

/-- C2 counterexample: a frame whose authenticated decryption fails
(`Unpacket` returns `none`) still increments `RecvNonce` — the increment
on line 473 of the source is unconditional, so a failed decrypt does not
leave `RecvNonce` unchanged. -/
theorem unpacket_incr_on_failed_decrypt :
    (Unpacket { NewTCPSecureConn with Shrkey := [1] } [0, 2, 9, 9]).2.1 = none ∧
    (Unpacket { NewTCPSecureConn with Shrkey := [1] } [0, 2, 9, 9]).2.2.RecvNonce ≠
      ({ NewTCPSecureConn with Shrkey := [1] } : TCPSecureConn).RecvNonce := by
  constructor
  · decide
  · show nonceIncr 0 ≠ 0
    decide

/-- C2 (amended): `SentNonce` is incremented by exactly one if and only
if the socket write succeeds, and `WritePacket` leaves `RecvNonce`
alone; `RecvNonce` is incremented by exactly one on every `Unpacket`
call, whether or not the authenticated decryption succeeds, and
`Unpacket` leaves `SentNonce` alone. -/
theorem nonce_bookkeeping (c : TCPSecureConn) (data encpkt : Bytes) (writeOk : Bool) :
    ((WritePacket c data writeOk).1.SentNonce =
      if writeOk then nonceIncr c.SentNonce else c.SentNonce) ∧
    (WritePacket c data writeOk).1.RecvNonce = c.RecvNonce ∧
    (Unpacket c encpkt).2.2.RecvNonce = nonceIncr c.RecvNonce ∧
    (Unpacket c encpkt).2.2.SentNonce = c.SentNonce := by
  unfold WritePacket Unpacket
  cases writeOk <;> simp

/-- C3: `SendCtrlPacket` enqueue policy — payloads longer than 2048
bytes are rejected before enqueue; with the control queue at its
capacity of 64 entries the call fails with the queue-full error and the
payload is dropped; otherwise the payload is enqueued and the call
succeeds. The operation is a total function of the queue state: it
never blocks. -/
theorem sendctrl_policy (c : TCPSecureConn) (data : Bytes) :
    (2048 < data.length →
      SendCtrlPacket c data = (c, some CtrlSendErr.dataTooLong)) ∧
    (data.length ≤ 2048 → cwctrlqCap ≤ c.cwctrlq.length →
      SendCtrlPacket c data = (c, some CtrlSendErr.queueFull)) ∧
    (data.length ≤ 2048 → c.cwctrlq.length < cwctrlqCap →
      SendCtrlPacket c data = ({ c with cwctrlq := c.cwctrlq ++ [data] }, none)) := by
  unfold SendCtrlPacket
  refine ⟨fun h => ?_, fun h hq => ?_, fun h hq => ?_⟩
  · rw [if_pos h]
  · rw [if_neg (by omega), if_pos hq]
  · rw [if_neg (by omega), if_neg (by omega)]

/-- C3 witness: the three policy outcomes at concrete inputs — an
oversized payload, a full queue, and a normal enqueue. -/
theorem sendctrl_policy_witness :
    SendCtrlPacket NewTCPSecureConn (List.replicate 2049 0) =
      (NewTCPSecureConn, some CtrlSendErr.dataTooLong) ∧
    SendCtrlPacket { NewTCPSecureConn with cwctrlq := List.replicate 64 [] } [1] =
      ({ NewTCPSecureConn with cwctrlq := List.replicate 64 [] }, some CtrlSendErr.queueFull) ∧
    SendCtrlPacket NewTCPSecureConn [1] =
      ({ NewTCPSecureConn with cwctrlq := [[1]] }, none) := by
  refine ⟨(sendctrl_policy _ _).1 (by rw [List.length_replicate]; omega), ?_, ?_⟩
  · exact (sendctrl_policy _ _).2.1 (by decide)
      (by show cwctrlqCap ≤ (List.replicate 64 ([] : Bytes)).length
          rw [List.length_replicate]; decide)
  · exact (sendctrl_policy _ _).2.2 (by decide) (by decide)

/-- C4: Status monotonicity — processing one unit moves the status only
forward through NoStatus → Unconfirmed → Confirmed with no skipped state
and no reverse transition: from `NO_STATUS` the status becomes
`UNCONFIRMED` (never directly `CONFIRMED`), from `UNCONFIRMED` it becomes
`CONFIRMED` (or stays `UNCONFIRMED` exactly when the pipeline dies in a
panic on a failed decrypt), and `CONFIRMED` is absorbing. -/
theorem status_monotone (c : TCPSecureConn) (rdbuf : Bytes) (r : HSRand) :
    (c.Status = TCP_STATUS_NO_STATUS →
      (doReadFrameStep c rdbuf r).1.Status = TCP_STATUS_UNCONFIRMED) ∧
    (c.Status = TCP_STATUS_UNCONFIRMED →
      (doReadFrameStep c rdbuf r).1.Status = TCP_STATUS_CONFIRMED ∨
      ((doReadFrameStep c rdbuf r).2.2 = ProcOut.panicked ∧
       (doReadFrameStep c rdbuf r).1.Status = TCP_STATUS_UNCONFIRMED)) ∧
    (c.Status = TCP_STATUS_CONFIRMED →
      (doReadFrameStep c rdbuf r).1.Status = TCP_STATUS_CONFIRMED) := by
  refine ⟨fun h0 => ?_, fun h2 => ?_, fun h3 => ?_⟩
  · simp [doReadFrameStep, h0, TCP_STATUS_NO_STATUS]
  · have hne : c.Status ≠ TCP_STATUS_NO_STATUS := by
      rw [h2]; decide
    simp only [doReadFrameStep, if_neg hne, if_pos h2]
    rcases hu : (Unpacket c rdbuf).2.1 with _ | pln
    · right
      simp [hu, Unpacket, h2]
    · rcases pln with _ | ⟨t, body⟩
      · right
        simp [hu, Unpacket, h2]
      · left
        simp [hu]
  · have hne : c.Status ≠ TCP_STATUS_NO_STATUS := by rw [h3]; decide
    have hne2 : c.Status ≠ TCP_STATUS_UNCONFIRMED := by rw [h3]; decide
    simp only [doReadFrameStep, if_neg hne, if_neg hne2, if_pos h3]
    rcases hu : (Unpacket c rdbuf).2.1 with _ | pln
    · simp [hu, Unpacket, h3]
    · rcases pln with _ | ⟨t, body⟩
      · simp [hu, Unpacket, h3]
      · simp [hu, Unpacket, h3]

/-- C4 witness: the three transitions at concrete connections — a fresh
connection after a handshake unit, an unconfirmed connection after its
first (well-formed) data unit, and a confirmed connection after a PING. -/
theorem status_monotone_witness :
    (doReadFrameStep NewTCPSecureConn (List.replicate 128 0) ⟨0, 0, [], []⟩).1.Status =
      TCP_STATUS_UNCONFIRMED ∧
    ((doReadFrameStep { NewTCPSecureConn with Status := TCP_STATUS_UNCONFIRMED }
        [0, 16, 0, 0, 0, 0, 0, 0, 0, 0, 0, 0, 0, 0, 0, 0, 0, 0] ⟨0, 0, [], []⟩).1.Status =
        TCP_STATUS_CONFIRMED ∨
      ((doReadFrameStep { NewTCPSecureConn with Status := TCP_STATUS_UNCONFIRMED }
        [0, 16, 0, 0, 0, 0, 0, 0, 0, 0, 0, 0, 0, 0, 0, 0, 0, 0] ⟨0, 0, [], []⟩).2.2 =
        ProcOut.panicked ∧
       (doReadFrameStep { NewTCPSecureConn with Status := TCP_STATUS_UNCONFIRMED }
        [0, 16, 0, 0, 0, 0, 0, 0, 0, 0, 0, 0, 0, 0, 0, 0, 0, 0] ⟨0, 0, [], []⟩).1.Status =
        TCP_STATUS_UNCONFIRMED)) ∧
    (doReadFrameStep { NewTCPSecureConn with Status := TCP_STATUS_CONFIRMED }
      [0, 2, 9, 9] ⟨0, 0, [], []⟩).1.Status = TCP_STATUS_CONFIRMED :=
  ⟨(status_monotone _ _ _).1 rfl, (status_monotone _ _ _).2.1 rfl,
   (status_monotone _ _ _).2.2 rfl⟩

/-- C5: First-packet special case — an `UNCONFIRMED` connection whose
next unit decrypts to a ping request (type byte `TCP_PACKET_PING` and an
8-byte ping id), with room in the control queue, enqueues a PONG echoing
the ping id, moves to `CONFIRMED`, and reports the `OnConfirmed`
callback as fired exactly when one is installed. -/
theorem first_packet_confirm (c : TCPSecureConn) (rdbuf body : Bytes) (r : HSRand)
    (hst : c.Status = TCP_STATUS_UNCONFIRMED)
    (hdec : DecryptDataSymmetric c.Shrkey c.RecvNonce (rdbuf.drop 2) =
      some (TCP_PACKET_PING :: body))
    (hid : body.length = 8)
    (hq : c.cwctrlq.length < cwctrlqCap) :
    (doReadFrameStep c rdbuf r).1.Status = TCP_STATUS_CONFIRMED ∧
    (doReadFrameStep c rdbuf r).1.cwctrlq = c.cwctrlq ++ [TCP_PACKET_PONG :: body] ∧
    (doReadFrameStep c rdbuf r).1.RecvNonce = nonceIncr c.RecvNonce ∧
    (doReadFrameStep c rdbuf r).2.2 = ProcOut.ok c.OnConfirmedSet := by
  have hne : c.Status ≠ TCP_STATUS_NO_STATUS := by rw [hst]; decide
  have hu : (Unpacket c rdbuf).2.1 = some (TCP_PACKET_PING :: body) := hdec
  simp only [doReadFrameStep, if_neg hne, if_pos hst, hu]
  have hlen : ¬ 2048 < (TCP_PACKET_PONG :: (TCP_PACKET_PING :: body).drop 1).length := by
    simp [hid]
  have hqq : ¬ cwctrlqCap ≤ (Unpacket c rdbuf).2.2.cwctrlq.length := by
    simp only [Unpacket]
    omega
  simp only [HandlePingRequest, SendCtrlPacket, if_neg hlen, if_neg hqq, Unpacket]
  rw [if_neg (Nat.not_le.mpr hq)]
  simp

/-- Concrete unconfirmed connection for the C5 witness. -/
def c5conn : TCPSecureConn :=
  { NewTCPSecureConn with Shrkey := [1], RecvNonce := 2, Status := TCP_STATUS_UNCONFIRMED, OnConfirmedSet := true }

/-- Concrete encrypted ping-request frame (id 42) for the C5 witness. -/
def c5frame : Bytes :=
  CreatePacket { NewTCPSecureConn with Shrkey := [1], SentNonce := 2 } [4, 0, 0, 0, 0, 0, 0, 0, 42]

/-- C5 witness: a concrete unconfirmed connection receiving a concrete
encrypted ping request with id 42. -/
theorem first_packet_confirm_witness :
    (doReadFrameStep c5conn c5frame ⟨0, 0, [], []⟩).1.Status = TCP_STATUS_CONFIRMED ∧
    (doReadFrameStep c5conn c5frame ⟨0, 0, [], []⟩).1.cwctrlq =
      c5conn.cwctrlq ++ [[5, 0, 0, 0, 0, 0, 0, 0, 42]] ∧
    (doReadFrameStep c5conn c5frame ⟨0, 0, [], []⟩).1.RecvNonce = nonceIncr c5conn.RecvNonce ∧
    (doReadFrameStep c5conn c5frame ⟨0, 0, [], []⟩).2.2 = ProcOut.ok true :=
  first_packet_confirm c5conn c5frame [0, 0, 0, 0, 0, 0, 0, 42] ⟨0, 0, [], []⟩
    rfl (by decide) rfl (by decide)

/-- Concrete confirmed connection for the C6 counterexample. -/
def c6conn : TCPSecureConn :=
  { NewTCPSecureConn with Shrkey := [1], RecvNonce := 2, Status := TCP_STATUS_CONFIRMED }

/-- Concrete encrypted PING frame (id 42) for the C6 counterexample. -/
def c6frame : Bytes :=
  CreatePacket { NewTCPSecureConn with Shrkey := [1], SentNonce := 2 } [4, 0, 0, 0, 0, 0, 0, 0, 42]

/-- C6 counterexample: a `CONFIRMED` connection decodes a frame whose
plaintext is a well-formed PING (type byte 4, 8-byte id 42), yet nothing
is enqueued on the control queue and nothing is written to the socket —
the `TCP_PACKET_PING` dispatch case on line 253 is an empty placeholder
(`HandlePingRequest` is commented out), so no PONG reply is produced. -/
theorem confirmed_ping_counterexample :
    c6conn.Status = TCP_STATUS_CONFIRMED ∧
    (Unpacket c6conn c6frame).2.1 = some [4, 0, 0, 0, 0, 0, 0, 0, 42] ∧
    (doReadFrameStep c6conn c6frame ⟨0, 0, [], []⟩).1.cwctrlq = [] ∧
    (doReadFrameStep c6conn c6frame ⟨0, 0, [], []⟩).2.1 = [] ∧
    (doReadFrameStep c6conn c6frame ⟨0, 0, [], []⟩).2.2 = ProcOut.ok false := by
  refine ⟨rfl, by decide, ?_, ?_, ?_⟩ <;> decide

/-- C6 (amended): a frame decoded in state `CONFIRMED` whose plaintext
type byte is PING (4) is accepted without error (the `PING` dispatch
case matches) and `RecvNonce` is incremented, but no PONG reply is
enqueued or written: the reply logic runs only for the first
post-handshake packet in state `UNCONFIRMED`; in `CONFIRMED` the ping
handler is an unimplemented placeholder. -/
theorem confirmed_ping_no_reply (c : TCPSecureConn) (rdbuf body : Bytes) (r : HSRand)
    (hst : c.Status = TCP_STATUS_CONFIRMED)
    (hdec : DecryptDataSymmetric c.Shrkey c.RecvNonce (rdbuf.drop 2) =
      some (TCP_PACKET_PING :: body)) :
    (doReadFrameStep c rdbuf r).1.cwctrlq = c.cwctrlq ∧
    (doReadFrameStep c rdbuf r).2.1 = [] ∧
    (doReadFrameStep c rdbuf r).2.2 = ProcOut.ok false ∧
    (doReadFrameStep c rdbuf r).1.RecvNonce = nonceIncr c.RecvNonce := by
  have hne : c.Status ≠ TCP_STATUS_NO_STATUS := by rw [hst]; decide
  have hne2 : c.Status ≠ TCP_STATUS_UNCONFIRMED := by rw [hst]; decide
  have hu : (Unpacket c rdbuf).2.1 = some (TCP_PACKET_PING :: body) := hdec
  simp only [doReadFrameStep, if_neg hne, if_neg hne2, if_pos hst, hu]
  simp [Unpacket, dispatchOk]

/-- C6 witness for the amended claim: the concrete confirmed connection
and PING frame of the counterexample, instantiating the general no-reply
theorem. -/
theorem confirmed_ping_no_reply_witness :
    (doReadFrameStep c6conn c6frame ⟨1, 1, [], []⟩).1.cwctrlq = c6conn.cwctrlq ∧
    (doReadFrameStep c6conn c6frame ⟨1, 1, [], []⟩).2.1 = [] ∧
    (doReadFrameStep c6conn c6frame ⟨1, 1, [], []⟩).2.2 = ProcOut.ok false ∧
    (doReadFrameStep c6conn c6frame ⟨1, 1, [], []⟩).1.RecvNonce = nonceIncr c6conn.RecvNonce :=
  confirmed_ping_no_reply c6conn c6frame [0, 0, 0, 0, 0, 0, 0, 42] ⟨1, 1, [], []⟩
    rfl (by decide)

/-- C8: Confirmed-state dispatch totality — a plaintext type byte in the
reserved-but-unassigned range 10-15 is accepted without error (it matches
the `ptype > ONION_RESPONSE && ptype < NUM_RESERVED_PORTS` case), whereas
the type bytes matched by no dispatch case — `ROUTING_REQUEST` (0),
`OOB_SEND` (6) and `ONION_REQUEST` (8) — reach the `default` branch,
`log.Fatalln`, a process-wide abort. -/
theorem confirmed_dispatch (c : TCPSecureConn) (rdbuf body : Bytes) (t : Nat) (r : HSRand)
    (hst : c.Status = TCP_STATUS_CONFIRMED)
    (hdec : DecryptDataSymmetric c.Shrkey c.RecvNonce (rdbuf.drop 2) = some (t :: body)) :
    (10 ≤ t → t ≤ 15 → (doReadFrameStep c rdbuf r).2.2 = ProcOut.ok false) ∧
    (t = TCP_PACKET_ROUTING_REQUEST ∨ t = TCP_PACKET_OOB_SEND ∨ t = TCP_PACKET_ONION_REQUEST →
      (doReadFrameStep c rdbuf r).2.2 = ProcOut.fatal) := by
  have hne : c.Status ≠ TCP_STATUS_NO_STATUS := by rw [hst]; decide
  have hne2 : c.Status ≠ TCP_STATUS_UNCONFIRMED := by rw [hst]; decide
  have hu : (Unpacket c rdbuf).2.1 = some (t :: body) := hdec
  simp only [doReadFrameStep, if_neg hne, if_neg hne2, if_pos hst, hu]
  constructor
  · intro h10 h15
    have hd : dispatchOk t = true := by
      interval_cases t <;> decide
    rw [hd]
    rfl
  · rintro (rfl | rfl | rfl) <;> decide

/-- Concrete confirmed connection for the C8 witness. -/
def c8conn : TCPSecureConn :=
  { NewTCPSecureConn with Shrkey := [2], RecvNonce := 7, Status := TCP_STATUS_CONFIRMED }

/-- Concrete frame decrypting to the reserved-unassigned type 12. -/
def c8frameReserved : Bytes :=
  CreatePacket { NewTCPSecureConn with Shrkey := [2], SentNonce := 7 } [12, 1, 2]

/-- Concrete frame decrypting to `ROUTING_REQUEST` (type 0). -/
def c8frameRouting : Bytes :=
  CreatePacket { NewTCPSecureConn with Shrkey := [2], SentNonce := 7 } [0, 1, 2]

/-- C8 witness: type 12 is accepted without error; type 0 reaches the
process-wide abort. -/
theorem confirmed_dispatch_witness :
    (doReadFrameStep c8conn c8frameReserved ⟨0, 0, [], []⟩).2.2 = ProcOut.ok false ∧
    (doReadFrameStep c8conn c8frameRouting ⟨0, 0, [], []⟩).2.2 = ProcOut.fatal :=
  ⟨(confirmed_dispatch c8conn c8frameReserved [1, 2] 12 ⟨0, 0, [], []⟩ rfl (by decide)).1
      (by decide) (by decide),
   (confirmed_dispatch c8conn c8frameRouting [1, 2] 0 ⟨0, 0, [], []⟩ rfl (by decide)).2
      (Or.inl rfl)⟩

/-- C10: Partial handshake is fatal — in state `NO_STATUS` the decode
loop reads the full fixed handshake-request size,
`(PUBLIC_KEY_SIZE+NONCE_SIZE)*2 + MAC_SIZE` bytes, from the inbound
buffer without first checking how many bytes are buffered: whenever
fewer bytes have arrived, the "not read enough data" assertion fires
instead of waiting for more; with enough bytes the fixed-size request is
extracted. The `UNCONFIRMED`/`CONFIRMED` reassembly path by contrast
returns to the socket wait on a short buffer. -/
theorem handshake_read_assert (buf : Bytes) :
    (buf.length < (PUBLIC_KEY_SIZE + NONCE_SIZE) * 2 + MAC_SIZE →
      hsReadNoStatus buf = HSReadRes.assertFail) ∧
    ((PUBLIC_KEY_SIZE + NONCE_SIZE) * 2 + MAC_SIZE ≤ buf.length →
      hsReadNoStatus buf =
        HSReadRes.frame (buf.take ((PUBLIC_KEY_SIZE + NONCE_SIZE) * 2 + MAC_SIZE))
          (buf.drop ((PUBLIC_KEY_SIZE + NONCE_SIZE) * 2 + MAC_SIZE))) ∧
    (buf.length < 2 → readStep buf 0 = StepRes.needMore buf 0) := by
  refine ⟨fun h => ?_, fun h => ?_, fun h => ?_⟩
  · rw [hsReadNoStatus, if_neg (by omega)]
  · rw [hsReadNoStatus, if_pos (by omega)]
  · rw [readStep, if_pos rfl, if_pos h]

/-- C10 witness: 127 buffered bytes trip the assertion; 128 extract the
request; a 1-byte buffer on the data path just waits. -/
theorem handshake_read_assert_witness :
    hsReadNoStatus (List.replicate 127 0) = HSReadRes.assertFail ∧
    hsReadNoStatus (List.replicate 128 0) =
      HSReadRes.frame ((List.replicate 128 0).take 128) ((List.replicate 128 0).drop 128) ∧
    readStep [9] 0 = StepRes.needMore [9] 0 :=
  ⟨(handshake_read_assert _).1 (by rw [List.length_replicate]; decide),
   (handshake_read_assert _).2.1 (by rw [List.length_replicate]; decide),
   (handshake_read_assert _).2.2 (by decide)⟩

/-! ### Helper lemmas for the reassembly loop (C7) -/

theorem be16_append (buf c : Bytes) (h : 2 ≤ buf.length) :
    be16 (buf ++ c) = be16 buf := by
  cases buf with
  | nil => simp at h
  | cons b0 t =>
    cases t with
    | nil => simp at h
    | cons b1 t2 => rfl

theorem readStep_needMore_self (buf b : Bytes) (pending p : Nat)
    (h : readStep buf pending = .needMore b p) :
    readStep b p = .needMore b p := by
  unfold readStep at h ⊢
  by_cases h0 : pending = 0
  · rw [if_pos h0] at h
    by_cases hl : buf.length < 2
    · rw [if_pos hl] at h
      injection h with hb hp
      subst hb; subst hp
      rw [if_pos rfl, if_pos hl]
    · rw [if_neg hl] at h
      by_cases hr : (buf.drop 2).length < be16 buf
      · rw [if_pos hr] at h
        injection h with hb hp
        subst hb; subst hp
        rw [if_neg (by omega), if_pos hr]
      · rw [if_neg hr] at h
        simp at h
  · rw [if_neg h0] at h
    by_cases hl : buf.length < pending
    · rw [if_pos hl] at h
      injection h with hb hp
      subst hb; subst hp
      rw [if_neg h0, if_pos hl]
    · rw [if_neg hl] at h
      simp at h

theorem readStep_got_lt (buf f rest : Bytes) (pending : Nat)
    (h : readStep buf pending = .got f rest) : rest.length < buf.length := by
  unfold readStep at h
  by_cases h0 : pending = 0
  · rw [if_pos h0] at h
    by_cases hl : buf.length < 2
    · rw [if_pos hl] at h; simp at h
    · rw [if_neg hl] at h
      by_cases hr : (buf.drop 2).length < be16 buf
      · rw [if_pos hr] at h; simp at h
      · rw [if_neg hr] at h
        injection h with hf hrest
        subst hrest
        simp only [List.length_drop]
        omega
  · rw [if_neg h0] at h
    by_cases hl : buf.length < pending
    · rw [if_pos hl] at h; simp at h
    · rw [if_neg hl] at h
      injection h with hf hrest
      subst hrest
      simp only [List.length_drop]
      omega

theorem readStep_got_append (buf c f rest : Bytes) (pending : Nat)
    (h : readStep buf pending = .got f rest) :
    readStep (buf ++ c) pending = .got f (rest ++ c) := by
  unfold readStep at h ⊢
  by_cases h0 : pending = 0
  · rw [if_pos h0] at h ⊢
    by_cases hl : buf.length < 2
    · rw [if_pos hl] at h; simp at h
    · rw [if_neg hl] at h
      by_cases hr : (buf.drop 2).length < be16 buf
      · rw [if_pos hr] at h; simp at h
      · rw [if_neg hr] at h
        injection h with hf hrest
        have hbe : be16 (buf ++ c) = be16 buf := be16_append _ _ (by omega)
        have hdrop : (buf ++ c).drop 2 = buf.drop 2 ++ c :=
          List.drop_append_of_le_length (by omega)
        have hlen : be16 buf ≤ (buf.drop 2).length := by omega
        rw [if_neg (by simp only [List.length_append]; omega), hbe, hdrop,
          if_neg (by simp only [List.length_append]; omega),
          List.take_append_of_le_length hlen, List.drop_append_of_le_length hlen,
          ← hf, ← hrest]
  · rw [if_neg h0] at h ⊢
    by_cases hl : buf.length < pending
    · rw [if_pos hl] at h; simp at h
    · rw [if_neg hl] at h
      injection h with hf hrest
      have hp : pending ≤ buf.length := by omega
      rw [if_neg (by simp only [List.length_append]; omega),
        List.take_append_of_le_length hp, List.drop_append_of_le_length hp,
        ← hf, ← hrest]

theorem drainFrames_fuel (f1 f2 : Nat) (buf : Bytes) (pending : Nat)
    (h1 : buf.length < f1) (h2 : buf.length < f2) :
    drainFrames f1 buf pending = drainFrames f2 buf pending := by
  induction f1 generalizing f2 buf pending with
  | zero => omega
  | succ n ih =>
    cases f2 with
    | zero => omega
    | succ m =>
      simp only [drainFrames]
      cases hs : readStep buf pending with
      | needMore b p => simp
      | got fr rest =>
        have hlt := readStep_got_lt _ _ _ _ hs
        dsimp only
        rw [ih m rest 0 (by omega) (by omega)]

theorem doReadPacketFrames_needMore (buf b : Bytes) (pending p : Nat)
    (h : readStep buf pending = .needMore b p) :
    doReadPacketFrames buf pending = ([], b, p) := by
  unfold doReadPacketFrames
  simp only [drainFrames]
  rw [h]

theorem doReadPacketFrames_got (buf f rest : Bytes) (pending : Nat)
    (h : readStep buf pending = .got f rest) :
    doReadPacketFrames buf pending =
      (f :: (doReadPacketFrames rest 0).1, (doReadPacketFrames rest 0).2.1,
       (doReadPacketFrames rest 0).2.2) := by
  have hlt := readStep_got_lt _ _ _ _ h
  unfold doReadPacketFrames
  have e2 : drainFrames buf.length rest 0 = drainFrames (rest.length + 1) rest 0 :=
    drainFrames_fuel _ _ _ _ (by omega) (by omega)
  simp only [drainFrames, h, e2]

theorem drainFrames_blocked (fuel : Nat) (buf : Bytes) (pending : Nat)
    (h : buf.length < fuel) :
    readStep (drainFrames fuel buf pending).2.1 (drainFrames fuel buf pending).2.2 =
      .needMore (drainFrames fuel buf pending).2.1 (drainFrames fuel buf pending).2.2 := by
  induction fuel generalizing buf pending with
  | zero => omega
  | succ n ih =>
    simp only [drainFrames]
    cases hs : readStep buf pending with
    | needMore b p =>
      simpa using readStep_needMore_self _ _ _ _ hs
    | got fr rest =>
      have hlt := readStep_got_lt _ _ _ _ hs
      simpa using ih rest 0 (by omega)

theorem doReadPacketFrames_blocked (buf : Bytes) (pending : Nat) :
    doReadPacketFrames (doReadPacketFrames buf pending).2.1
      (doReadPacketFrames buf pending).2.2 =
      ([], (doReadPacketFrames buf pending).2.1, (doReadPacketFrames buf pending).2.2) :=
  doReadPacketFrames_needMore _ _ _ _ (drainFrames_blocked _ _ _ (by omega))

theorem doReadPacketFrames_nil (pending : Nat) :
    doReadPacketFrames [] pending = ([], [], pending) := by
  apply doReadPacketFrames_needMore
  unfold readStep
  by_cases p0 : pending = 0
  · subst p0
    rw [if_pos rfl, if_pos (by simp)]
  · rw [if_neg p0, if_pos (by simp; omega)]

/-- Streaming invariance: running one `doReadPacket` call on `buf ++ c`
yields exactly the units of running it on `buf` first and then on the
leftover state with `c` appended — the extraction is a function of the
byte stream, not of the read boundaries. -/
theorem doReadPacketFrames_append (c : Bytes) :
    ∀ (n : Nat) (buf : Bytes) (pending : Nat), buf.length ≤ n →
    doReadPacketFrames (buf ++ c) pending =
      ((doReadPacketFrames buf pending).1 ++
        (doReadPacketFrames ((doReadPacketFrames buf pending).2.1 ++ c)
          (doReadPacketFrames buf pending).2.2).1,
       (doReadPacketFrames ((doReadPacketFrames buf pending).2.1 ++ c)
          (doReadPacketFrames buf pending).2.2).2.1,
       (doReadPacketFrames ((doReadPacketFrames buf pending).2.1 ++ c)
          (doReadPacketFrames buf pending).2.2).2.2) := by
  intro n
  induction n with
  | zero =>
    intro buf pending h
    have hbuf : buf = [] := List.eq_nil_of_length_eq_zero (by omega)
    subst hbuf
    rw [doReadPacketFrames_nil]
    simp
  | succ m ih =>
    intro buf pending h
    cases hs : readStep buf pending with
    | needMore b p =>
      rw [doReadPacketFrames_needMore _ _ _ _ hs]
      simp only [List.nil_append]
      unfold readStep at hs
      by_cases p0 : pending = 0
      · rw [if_pos p0] at hs
        by_cases hl : buf.length < 2
        · rw [if_pos hl] at hs
          injection hs with hb hp
          subst hb; subst hp; subst p0
          rfl
        · rw [if_neg hl] at hs
          by_cases hr : (buf.drop 2).length < be16 buf
          · rw [if_pos hr] at hs
            injection hs with hb hp
            subst hb; subst hp; subst p0
            have hlc : ¬ (buf ++ c).length < 2 := by
              simp only [List.length_append]; omega
            have hbe : be16 (buf ++ c) = be16 buf := be16_append _ _ (by omega)
            have hdrop : (buf ++ c).drop 2 = buf.drop 2 ++ c :=
              List.drop_append_of_le_length (by omega)
            by_cases hr2 : (buf.drop 2 ++ c).length < be16 buf
            · have hstep1 : readStep (buf ++ c) 0 =
                  .needMore (buf.drop 2 ++ c) (be16 buf) := by
                unfold readStep
                rw [if_pos rfl, if_neg hlc, hbe, hdrop, if_pos hr2]
              have hstep2 : readStep (buf.drop 2 ++ c) (be16 buf) =
                  .needMore (buf.drop 2 ++ c) (be16 buf) := by
                unfold readStep
                rw [if_neg (by omega), if_pos hr2]
              rw [doReadPacketFrames_needMore _ _ _ _ hstep1,
                doReadPacketFrames_needMore _ _ _ _ hstep2]
            · have hstep1 : readStep (buf ++ c) 0 =
                  .got (u16be (be16 buf) ++ (buf.drop 2 ++ c).take (be16 buf))
                    ((buf.drop 2 ++ c).drop (be16 buf)) := by
                unfold readStep
                rw [if_pos rfl, if_neg hlc, hbe, hdrop, if_neg hr2]
              have hstep2 : readStep (buf.drop 2 ++ c) (be16 buf) =
                  .got (u16be (be16 buf) ++ (buf.drop 2 ++ c).take (be16 buf))
                    ((buf.drop 2 ++ c).drop (be16 buf)) := by
                unfold readStep
                rw [if_neg (by omega), if_neg hr2]
              rw [doReadPacketFrames_got _ _ _ _ hstep1,
                doReadPacketFrames_got _ _ _ _ hstep2]
          · rw [if_neg hr] at hs
            simp at hs
      · rw [if_neg p0] at hs
        by_cases hl : buf.length < pending
        · rw [if_pos hl] at hs
          injection hs with hb hp
          subst hb; subst hp
          rfl
        · rw [if_neg hl] at hs
          simp at hs
    | got f rest =>
      have hlt := readStep_got_lt _ _ _ _ hs
      rw [doReadPacketFrames_got _ _ _ _ hs,
        doReadPacketFrames_got _ _ _ _ (readStep_got_append _ _ _ _ _ hs),
        ih rest 0 (by omega)]
      simp

/-- Feeding chunks one socket read at a time, starting from a blocked
state, extracts the same units as one call on the concatenated stream. -/
theorem runReadChunks_flatten (chunks : List Bytes) :
    ∀ (buf : Bytes) (pending : Nat),
    doReadPacketFrames buf pending = ([], buf, pending) →
    runReadChunks (buf, pending) chunks =
      doReadPacketFrames (buf ++ chunks.flatten) pending := by
  induction chunks with
  | nil =>
    intro buf pending hb
    simp only [runReadChunks, List.flatten_nil, List.append_nil, hb]
  | cons ch rest ih =>
    intro buf pending hb
    simp only [runReadChunks, List.flatten_cons]
    rw [← List.append_assoc,
      doReadPacketFrames_append _ ((buf ++ ch).length) _ _ (le_refl _),
      ih _ _ (doReadPacketFrames_blocked (buf ++ ch) pending)]

theorem be16_u16be (n : Nat) (l : Bytes) (h : n < 65536) :
    be16 (u16be n ++ l) = n := by
  simp only [u16be, be16, List.cons_append, Nat.mod_eq_of_lt h]
  omega

theorem drain_single_frame (p : Bytes) (h : p.length < 65536) :
    doReadPacketFrames (u16be p.length ++ p) 0 = ([u16be p.length ++ p], [], 0) := by
  have hdrop : (u16be p.length ++ p).drop 2 = p := by
    simp [u16be]
  have hstep : readStep (u16be p.length ++ p) 0 = .got (u16be p.length ++ p) [] := by
    unfold readStep
    rw [if_pos rfl,
      if_neg (by simp only [u16be, List.cons_append, List.length_cons]; omega),
      be16_u16be _ _ h, hdrop, if_neg (by omega),
      List.take_length, List.drop_length]
  rw [doReadPacketFrames_got _ _ _ _ hstep, doReadPacketFrames_nil]

/-- C7: Length-prefixed reassembly — in states
`UNCONFIRMED`/`CONFIRMED`, one decode call (i) returns with the buffer
untouched when fewer than 2 bytes are buffered and no length is pending,
(ii) returns keeping the pending length when fewer than that many bytes
are buffered, (iii) consumes the 2-byte big-endian length when available
and returns remembering it when the payload is still short, (iv)
otherwise extracts exactly one unit of exactly the announced length and
repeats; hence (v) a frame split across multiple partial socket reads is
reassembled intact: feeding its chunks through successive read calls
yields the frame exactly once, leaving an empty buffer and no pending
length. -/
theorem reassembly :
    (∀ buf : Bytes, buf.length < 2 → doReadPacketFrames buf 0 = ([], buf, 0)) ∧
    (∀ (buf : Bytes) (pending : Nat), pending ≠ 0 → buf.length < pending →
      doReadPacketFrames buf pending = ([], buf, pending)) ∧
    (∀ buf : Bytes, 2 ≤ buf.length → (buf.drop 2).length < be16 buf →
      doReadPacketFrames buf 0 = ([], buf.drop 2, be16 buf)) ∧
    (∀ (buf f rest : Bytes) (pending : Nat), readStep buf pending = .got f rest →
      doReadPacketFrames buf pending =
        (f :: (doReadPacketFrames rest 0).1, (doReadPacketFrames rest 0).2.1,
         (doReadPacketFrames rest 0).2.2)) ∧
    (∀ (p : Bytes) (chunks : List Bytes), p.length < 65536 →
      chunks.flatten = u16be p.length ++ p →
      runReadChunks ([], 0) chunks = ([u16be p.length ++ p], [], 0)) := by
  refine ⟨fun buf h => ?_, fun buf pending h0 hl => ?_, fun buf h2 hr => ?_,
    fun buf f rest pending h => doReadPacketFrames_got _ _ _ _ h,
    fun p chunks hp hflat => ?_⟩
  · apply doReadPacketFrames_needMore
    unfold readStep
    rw [if_pos rfl, if_pos h]
  · apply doReadPacketFrames_needMore
    unfold readStep
    rw [if_neg h0, if_pos hl]
  · apply doReadPacketFrames_needMore
    unfold readStep
    rw [if_pos rfl, if_neg (by omega), if_pos hr]
  · rw [runReadChunks_flatten chunks [] 0 (doReadPacketFrames_nil 0)]
    rw [List.nil_append, hflat]
    exact drain_single_frame p hp

/-- C7 witness: the wait cases at tiny buffers, a one-shot extraction,
and the spec's split-frame scenario — the frame `[0,3,1,2,3]` (length 3,
payload `[1,2,3]`) delivered as reads of 1, 2 and 2 bytes comes out as
exactly one intact unit. -/
theorem reassembly_witness :
    doReadPacketFrames [7] 0 = ([], [7], 0) ∧
    doReadPacketFrames [1, 2] 5 = ([], [1, 2], 5) ∧
    doReadPacketFrames [0, 9, 1] 0 = ([], [1], 9) ∧
    doReadPacketFrames [0, 1, 5] 0 = ([[0, 1, 5]], [], 0) ∧
    runReadChunks ([], 0) [[0], [3, 1], [2, 3]] = ([[0, 3, 1, 2, 3]], [], 0) :=
  ⟨reassembly.1 [7] (by decide),
   reassembly.2.1 [1, 2] 5 (by decide) (by decide),
   reassembly.2.2.1 [0, 9, 1] (by decide) (by decide),
   reassembly.2.2.2.1 [0, 1, 5] [0, 1, 5] [] 0 (by decide),
   reassembly.2.2.2.2 [1, 2, 3] [[0], [3, 1], [2, 3]] (by decide) (by decide)⟩

/-- Unfolding of `HandleHandshake` on a well-formed handshake request
buffer: the slicing recovers the three wire components exactly. -/
theorem HandleHandshake_spec (c : TCPSecureConn) (cliPk n24 tmppk rn24 : Bytes)
    (r : HSRand)
    (h1 : cliPk.length = PUBLIC_KEY_SIZE) (h2 : n24.length = NONCE_SIZE)
    (h3 : tmppk.length = PUBLIC_KEY_SIZE) (h4 : rn24.length = NONCE_SIZE) :
    HandleHandshake c
      ((cliPk ++ n24) ++
        EncryptDataSymmetric (CBBeforeNm cliPk c.Seckey) (beNat n24) (tmppk ++ rn24)) r =
      ({ c with
          Pubkey := cliPk
          RecvNonce := beNat rn24
          SentNonce := r.sentNonce
          Shrkey := CBBeforeNm tmppk r.tmpSeckey },
       nonceBytes r.srvTmpNonce ++
         EncryptDataSymmetric (CBBeforeNm cliPk c.Seckey) r.srvTmpNonce
           (r.tmpPubkey ++ nonceBytes r.sentNonce)) := by
  have e1 : ((cliPk ++ n24) ++
      EncryptDataSymmetric (CBBeforeNm cliPk c.Seckey) (beNat n24)
        (tmppk ++ rn24)).take PUBLIC_KEY_SIZE = cliPk := by
    rw [List.append_assoc, ← h1, List.take_left]
  have e2 : (((cliPk ++ n24) ++
      EncryptDataSymmetric (CBBeforeNm cliPk c.Seckey) (beNat n24)
        (tmppk ++ rn24)).drop PUBLIC_KEY_SIZE).take NONCE_SIZE = n24 := by
    rw [List.append_assoc, ← h1, List.drop_left, ← h2, List.take_left]
  have e3 : ((cliPk ++ n24) ++
      EncryptDataSymmetric (CBBeforeNm cliPk c.Seckey) (beNat n24)
        (tmppk ++ rn24)).drop (PUBLIC_KEY_SIZE + NONCE_SIZE) =
      EncryptDataSymmetric (CBBeforeNm cliPk c.Seckey) (beNat n24) (tmppk ++ rn24) := by
    have hl : (cliPk ++ n24).length = PUBLIC_KEY_SIZE + NONCE_SIZE := by
      rw [List.length_append, h1, h2]
    rw [← hl, List.drop_left]
  have e4 : (tmppk ++ rn24).take PUBLIC_KEY_SIZE = tmppk := by
    rw [← h3, List.take_left]
  have e5 : ((tmppk ++ rn24).drop PUBLIC_KEY_SIZE).take NONCE_SIZE = rn24 := by
    rw [← h3, List.drop_left, List.take_of_length_le (by omega)]
  simp only [HandleHandshake, e1, e2, e3, decrypt_encrypt, Option.getD_some, e4, e5]

/-- C9: Handshake processing — on a handshake request
`cliPk ‖ n24 ‖ AuthEncrypt(shrkey0, n24, tmppk ‖ rn24)` (whose size is
`2·(PUBLIC_KEY_SIZE+NONCE_SIZE) + MAC_SIZE`), where
`shrkey0 = SharedSecret(cliPk, Seckey)`, the relay in state `NO_STATUS`
derives `shrkey0`, recovers the client's temporary public key `tmppk`
and receive-nonce seed `rn24` from the blob, derives the session key
`Shrkey = SharedSecret(tmppk, tmpSeckey)` from a fresh relay temporary
secret key, stores the fresh send nonce, writes the response
`srvTmpNonce ‖ AuthEncrypt(shrkey0, srvTmpNonce, tmpPubkey ‖ sentNonce)`
to the socket, and moves the status to `UNCONFIRMED`. -/
theorem handshake_processing (c : TCPSecureConn) (cliPk n24 tmppk rn24 rdbuf : Bytes)
    (r : HSRand)
    (hc : c.Status = TCP_STATUS_NO_STATUS)
    (h1 : cliPk.length = PUBLIC_KEY_SIZE) (h2 : n24.length = NONCE_SIZE)
    (h3 : tmppk.length = PUBLIC_KEY_SIZE) (h4 : rn24.length = NONCE_SIZE)
    (hbuf : rdbuf = (cliPk ++ n24) ++
      EncryptDataSymmetric (CBBeforeNm cliPk c.Seckey) (beNat n24) (tmppk ++ rn24)) :
    rdbuf.length = (PUBLIC_KEY_SIZE + NONCE_SIZE) * 2 + MAC_SIZE ∧
    (doReadFrameStep c rdbuf r).1.Shrkey = CBBeforeNm tmppk r.tmpSeckey ∧
    (doReadFrameStep c rdbuf r).1.RecvNonce = beNat rn24 ∧
    (doReadFrameStep c rdbuf r).1.SentNonce = r.sentNonce ∧
    (doReadFrameStep c rdbuf r).1.Pubkey = cliPk ∧
    (doReadFrameStep c rdbuf r).1.Status = TCP_STATUS_UNCONFIRMED ∧
    (doReadFrameStep c rdbuf r).2.1 =
      nonceBytes r.srvTmpNonce ++
        EncryptDataSymmetric (CBBeforeNm cliPk c.Seckey) r.srvTmpNonce
          (r.tmpPubkey ++ nonceBytes r.sentNonce) := by
  subst hbuf
  refine ⟨?_, ?_⟩
  · rw [List.length_append, List.length_append, encrypt_length, List.length_append,
      h1, h2, h3, h4]
    decide
  · simp only [doReadFrameStep, if_pos hc,
      HandleHandshake_spec c cliPk n24 tmppk rn24 r h1 h2 h3 h4]
    simp

/-- Concrete fresh connection (with a fixed relay secret key) for the C9
witness. -/
def c9conn : TCPSecureConn :=
  { NewTCPSecureConn with Seckey := List.replicate 32 5 }

/-- Concrete handshake randomness for the C9 witness. -/
def c9rand : HSRand :=
  { sentNonce := 6, srvTmpNonce := 7, tmpPubkey := List.replicate 32 8
    tmpSeckey := List.replicate 32 9 }

/-- Concrete well-formed handshake request for the C9 witness. -/
def c9buf : Bytes :=
  (List.replicate 32 1 ++ List.replicate 24 2) ++
    EncryptDataSymmetric (CBBeforeNm (List.replicate 32 1) c9conn.Seckey)
      (beNat (List.replicate 24 2)) (List.replicate 32 3 ++ List.replicate 24 4)

/-- C9 witness: the handshake outcome at the concrete request `c9buf`. -/
theorem handshake_processing_witness :
    c9buf.length = (PUBLIC_KEY_SIZE + NONCE_SIZE) * 2 + MAC_SIZE ∧
    (doReadFrameStep c9conn c9buf c9rand).1.Shrkey =
      CBBeforeNm (List.replicate 32 3) c9rand.tmpSeckey ∧
    (doReadFrameStep c9conn c9buf c9rand).1.RecvNonce = beNat (List.replicate 24 4) ∧
    (doReadFrameStep c9conn c9buf c9rand).1.SentNonce = c9rand.sentNonce ∧
    (doReadFrameStep c9conn c9buf c9rand).1.Pubkey = List.replicate 32 1 ∧
    (doReadFrameStep c9conn c9buf c9rand).1.Status = TCP_STATUS_UNCONFIRMED ∧
    (doReadFrameStep c9conn c9buf c9rand).2.1 =
      nonceBytes c9rand.srvTmpNonce ++
        EncryptDataSymmetric (CBBeforeNm (List.replicate 32 1) c9conn.Seckey)
          c9rand.srvTmpNonce (c9rand.tmpPubkey ++ nonceBytes c9rand.sentNonce) :=
  handshake_processing c9conn (List.replicate 32 1) (List.replicate 24 2)
    (List.replicate 32 3) (List.replicate 24 4) c9buf c9rand rfl
    (by decide) (by decide) (by decide) (by decide) rfl

end Mintox
